import Mathlib

/-!
Verification of the overlaylib 2D overlay renderer (font atlas construction,
frame batching, shape tessellation) against its natural-language specification.

Modelling conventions:
* `f32` values are modelled as exact rationals (`ℚ`); machine rounding is not
  modelled, so all arithmetic facts below are about the exact real-number
  semantics of the source expressions.
* Rust code that can panic (`unwrap`, indexing a missing key) is modelled in
  the `Option` monad: `none` means the source panics.
* FreeType rasterization (`FT_Load_Char` and the glyph slot it fills) is an
  external C library; it is modelled as an abstract, deterministic per-code
  result `RasterGlyph` (the slot contents observed after loading that code,
  plus whether the load call reported success).  Pixel blitting into the
  atlas image is not modelled: no claim is about pixel contents.
* The trigonometric functions used by circle tessellation and the GPU/window
  layer are irrelevant to the claims; `cos`/`sin` are passed as abstract
  function parameters where the source calls `f32::cos`/`f32::sin`.
-/

set_option maxRecDepth 100000
set_option maxHeartbeats 2000000

namespace Overlaylib

/-- A 2D point, `[f32; 2]` in the source (`lib.rs`, `pub type Point`). -/
abbrev Point : Type := ℚ × ℚ

/-- An RGBA color, `[f32; 4]` in the source (`lib.rs`, `pub type Color`). -/
abbrev Color : Type := ℚ × ℚ × ℚ × ℚ

/-- The vertex format of `lib.rs`: position, texture coordinates, color. -/
structure Vertex where
  position : Point
  tex_coords : Point
  color : Color
  deriving DecidableEq

/-- The exact value of `f32::MAX`, used by the source to seed bounding-box
minimum folds. -/
def f32MAX : ℚ := (2 ^ 24 - 1) * 2 ^ 104

/-- The exact value of `f32::MIN`, used by the source to seed bounding-box
maximum folds. -/
def f32MIN : ℚ := -f32MAX

/-- The exact value of `std::f32::consts::PI` (the IEEE-754 single-precision
rounding of pi), used by the circle tessellators. -/
def piF32 : ℚ := 13176795 / 4194304

/-- Exact rational square root: returns the nonnegative root when the input
is the square of a rational, and `0` otherwise.  The source calls `f32::sqrt`;
every claim below only evaluates it on perfect squares (axis-aligned deltas),
where this model is exact. -/
def sqrtQ (q : ℚ) : ℚ :=
  if 0 ≤ q ∧ Nat.sqrt q.num.toNat ^ 2 = q.num.toNat ∧ Nat.sqrt q.den ^ 2 = q.den
  then (Nat.sqrt q.num.toNat : ℚ) / (Nat.sqrt q.den : ℚ)
  else 0

/-- `math.rs` `magnitude`: Euclidean length of a 2D vector. -/
def magnitude (p : Point) : ℚ := sqrtQ (p.1 ^ 2 + p.2 ^ 2)

/-- `math.rs` `normalize`: divide a vector by its magnitude.  On a zero
vector the source produces NaN (documented degenerate case); the model
produces `0` (division by zero in `ℚ`). -/
def normalize (p : Point) : Point := (p.1 / magnitude p, p.2 / magnitude p)

/-- The rounding mode of Rust `f32::round`: to the nearest integer, ties
away from zero. -/
def rustRound (q : ℚ) : ℚ := if 0 ≤ q then (⌊q + 1 / 2⌋ : ℚ) else (⌈q - 1 / 2⌉ : ℚ)

/-- The frame of `frame.rs`: one vertex buffer filled by the shape builder
functions and one filled by the text path.  (This revision has no
texture-keyed run list; these two buffers are all the state there is.) -/
structure Frame where
  shape_buffer : List Vertex
  text_buffer : List Vertex
  deriving DecidableEq

/-- The empty frame produced by `Frame::new`. -/
def frame0 : Frame := { shape_buffer := [], text_buffer := [] }

/-- `frame.rs` `Frame::get_draw_data`: returns references to the two
buffers, in order shape then text. -/
def Frame.get_draw_data (f : Frame) : List (List Vertex) :=
  [f.shape_buffer, f.text_buffer]

/-- `line.rs` `get_line`: tessellate a segment into 6 vertices (two
triangles).  Note the perpendicular offset multiplies the unit normal by the
full `thickness` (this function, unlike `Frame::add_line`, never halves it). -/
def get_line (start endp : Point) (color : Color) (thickness : ℚ) : List Vertex :=
  let delta : Point := (endp.1 - start.1, endp.2 - start.2)
  let direction := normalize delta
  let c1 : Point := (-direction.2, direction.1)
  let c2 : Point := (direction.2, -direction.1)
  let end_corner1 : Point := (endp.1 + c1.1 * thickness, endp.2 + c1.2 * thickness)
  let end_corner2 : Point := (endp.1 + c2.1 * thickness, endp.2 + c2.2 * thickness)
  let start_corner1 : Point := (start.1 + c1.1 * thickness, start.2 + c1.2 * thickness)
  let start_corner2 : Point := (start.1 + c2.1 * thickness, start.2 + c2.2 * thickness)
  [ { position := start_corner1, tex_coords := (0, 0), color := color },
    { position := end_corner2, tex_coords := (0, 0), color := color },
    { position := end_corner1, tex_coords := (0, 0), color := color },
    { position := start_corner2, tex_coords := (0, 0), color := color },
    { position := end_corner2, tex_coords := (0, 0), color := color },
    { position := start_corner1, tex_coords := (0, 0), color := color } ]

/-- `frame.rs` `Frame::add_line`: halves the thickness, then pushes the same
two triangles as `get_line` onto the shape buffer. -/
def Frame.add_line (f : Frame) (start endp : Point) (thickness : ℚ) (color : Color) : Frame :=
  let thickness := thickness / 2
  let delta : Point := (endp.1 - start.1, endp.2 - start.2)
  let direction := normalize delta
  let c1 : Point := (-direction.2, direction.1)
  let c2 : Point := (direction.2, -direction.1)
  let end_corner1 : Point := (endp.1 + c1.1 * thickness, endp.2 + c1.2 * thickness)
  let end_corner2 : Point := (endp.1 + c2.1 * thickness, endp.2 + c2.2 * thickness)
  let start_corner1 : Point := (start.1 + c1.1 * thickness, start.2 + c1.2 * thickness)
  let start_corner2 : Point := (start.1 + c2.1 * thickness, start.2 + c2.2 * thickness)
  { f with shape_buffer := f.shape_buffer ++
      [ { position := start_corner1, tex_coords := (0, 0), color := color },
        { position := end_corner2, tex_coords := (0, 0), color := color },
        { position := end_corner1, tex_coords := (0, 0), color := color },
        { position := start_corner2, tex_coords := (0, 0), color := color },
        { position := end_corner2, tex_coords := (0, 0), color := color },
        { position := start_corner1, tex_coords := (0, 0), color := color } ] }

/-- The `Rectangle` struct declared in `frame.rs` (consumed by
`Frame::add_rect`). -/
structure FrameRect where
  top_left : Point
  bottom_right : Point
  color : Color
  filled : Bool
  thickness : ℚ
  deriving DecidableEq

/-- `frame.rs` `Frame::add_rect`: rounds both corners to the nearest
integers, then either pushes two triangles (filled) or draws the four border
lines with half-thickness end compensation. -/
def Frame.add_rect (f : Frame) (r : FrameRect) : Frame :=
  let r := { r with
    top_left := (rustRound r.top_left.1, rustRound r.top_left.2),
    bottom_right := (rustRound r.bottom_right.1, rustRound r.bottom_right.2) }
  if r.filled then
    { f with shape_buffer := f.shape_buffer ++
        [ { position := r.top_left, tex_coords := (0, 0), color := r.color },
          { position := (r.bottom_right.1, r.top_left.2), tex_coords := (0, 0), color := r.color },
          { position := (r.top_left.1, r.bottom_right.2), tex_coords := (0, 0), color := r.color },
          { position := (r.bottom_right.1, r.top_left.2), tex_coords := (0, 0), color := r.color },
          { position := (r.bottom_right.1, r.bottom_right.2), tex_coords := (0, 0), color := r.color },
          { position := (r.top_left.1, r.bottom_right.2), tex_coords := (0, 0), color := r.color } ] }
  else
    ((((f.add_line r.top_left (r.bottom_right.1, r.top_left.2) r.thickness r.color
      ).add_line (r.bottom_right.1, r.top_left.2 - r.thickness / 2)
                 (r.bottom_right.1, r.bottom_right.2 + r.thickness / 2) r.thickness r.color
      ).add_line r.bottom_right (r.top_left.1, r.bottom_right.2) r.thickness r.color
      ).add_line (r.top_left.1, r.bottom_right.2 + r.thickness / 2)
                 (r.top_left.1, r.top_left.2 - r.thickness / 2) r.thickness r.color)

/-- The `Circle` struct declared in `frame.rs` (consumed by
`Frame::add_circle`). -/
structure FrameCircle where
  center : Point
  radius : ℚ
  color : Color
  detail : ℕ
  filled : Bool
  thickness : ℚ
  deriving DecidableEq

/-- `frame.rs` `Frame::add_circle`: for each of `detail` steps either push a
triangle-fan wedge (filled) or an `add_line` segment.  `cosQ`/`sinQ` stand
for `f32::cos`/`f32::sin`. -/
def Frame.add_circle (cosQ sinQ : ℚ → ℚ) (f : Frame) (c : FrameCircle) : Frame :=
  (List.range c.detail).foldl
    (fun f i =>
      let angle := 2 * piF32 * ((i : ℚ) / (c.detail : ℚ))
      let x := c.center.1 + c.radius * cosQ angle
      let y := c.center.2 + c.radius * sinQ angle
      let next_angle := 2 * piF32 * (((i : ℚ) + 1) / (c.detail : ℚ))
      let next_x := c.center.1 + c.radius * cosQ next_angle
      let next_y := c.center.2 + c.radius * sinQ next_angle
      if c.filled then
        { f with shape_buffer := f.shape_buffer ++
            [ { position := (x, y), tex_coords := (0, 0), color := c.color },
              { position := (next_x, next_y), tex_coords := (0, 0), color := c.color },
              { position := c.center, tex_coords := (0, 0), color := c.color } ] }
      else
        f.add_line (x, y) (next_x, next_y) c.thickness c.color)
    f

/-- The `Outline` struct of `primitives/mod.rs`. -/
structure Outline where
  thickness : ℚ
  color : Color
  deriving DecidableEq

/-- The `Circle` primitive of `primitives/circle.rs`. -/
structure CirclePrim where
  position : Point
  color : Color
  radius : ℚ
  filled : Bool
  detail : ℕ
  border : Option Outline
  deriving DecidableEq

/-- `circle.rs` `Circle::get_vertices`: per step, optionally a fan wedge
(filled) and, whenever a border is configured, a `get_line` segment. -/
def CirclePrim.get_vertices (cosQ sinQ : ℚ → ℚ) (c : CirclePrim) : List Vertex :=
  (List.range c.detail).foldl
    (fun buf i =>
      let angle := 2 * piF32 * ((i : ℚ) / (c.detail : ℚ))
      let x := c.position.1 + c.radius * cosQ angle
      let y := c.position.2 + c.radius * sinQ angle
      let next_angle := 2 * piF32 * (((i : ℚ) + 1) / (c.detail : ℚ))
      let next_x := c.position.1 + c.radius * cosQ next_angle
      let next_y := c.position.2 + c.radius * sinQ next_angle
      let buf :=
        if c.filled then
          buf ++
            [ { position := (x, y), tex_coords := (0, 0), color := c.color },
              { position := (next_x, next_y), tex_coords := (0, 0), color := c.color },
              { position := c.position, tex_coords := (0, 0), color := c.color } ]
        else buf
      match c.border with
      | some b => buf ++ get_line (x, y) (next_x, next_y) b.color b.thickness
      | none => buf)
    []

/-- The per-glyph record of `font.rs` (`Glyph`): metrics in pixels plus the
normalized horizontal atlas offset. -/
structure Glyph where
  advance_x : ℚ
  advance_y : ℚ
  bitmap_width : ℚ
  bitmap_height : ℚ
  bitmap_left : ℚ
  bitmap_top : ℚ
  texture_x : ℚ
  deriving DecidableEq

/-- The glyph-slot contents observed after `FT_Load_Char(face, i, FT_LOAD_RENDER)`
for one character code, together with whether that call returned 0 (`ok`).
FreeType is an external C library; a build of one face is determined by this
per-code function.  When the load fails the source only prints a warning and
keeps using whatever the slot holds, which is exactly what this record
captures. -/
structure RasterGlyph where
  width : ℕ
  rows : ℕ
  left : ℤ
  top : ℤ
  advance_x : ℤ
  advance_y : ℤ
  ok : Bool

/-- The `FontAtlas` of `font.rs`: the GPU texture (modelled as an identifying
handle), its pixel dimensions, the nominal size data, and the glyph table. -/
structure FontAtlas where
  texture : ℕ
  texture_dimensions : ℕ × ℕ
  glyph_height : ℚ
  font_size : ℚ
  glyphs : List Glyph
  deriving DecidableEq

/-- First pass of `FontAtlas::new`: total atlas width, accumulating
`bitmap.width + 1` over codes 0..128 regardless of load success. -/
def atlasWidth (load : ℕ → RasterGlyph) : ℕ :=
  (List.range 128).foldl (fun w i => w + ((load i).width + 1)) 0

/-- First pass of `FontAtlas::new`: atlas height, the running maximum of
`bitmap.rows` over codes 0..128. -/
def atlasHeight (load : ℕ → RasterGlyph) : ℕ :=
  (List.range 128).foldl (fun h i => max h (load i).rows) 0

/-- The glyph record pushed by the second pass of `FontAtlas::new` for one
code: advances come in 26.6 fixed point (hence `/ 64`), and `texture_x` is
the running horizontal offset divided by the total width. -/
def mkGlyph (g : RasterGlyph) (x w : ℕ) : Glyph :=
  { advance_x := (g.advance_x : ℚ) / 64
    advance_y := (g.advance_y : ℚ) / 64
    bitmap_width := (g.width : ℚ)
    bitmap_height := (g.rows : ℚ)
    bitmap_left := (g.left : ℚ)
    bitmap_top := (g.top : ℚ)
    texture_x := (x : ℚ) / (w : ℚ) }

/-- Second pass of `FontAtlas::new` over a list of codes: carries the
running x offset and the glyph list, pushing one glyph per code and then
advancing x by `width + 1`.  Every code gets an entry, failed or not. -/
def glyphPass (load : ℕ → RasterGlyph) (w : ℕ) (codes : List ℕ) (st : ℕ × List Glyph) :
    ℕ × List Glyph :=
  codes.foldl
    (fun st i => (st.1 + ((load i).width + 1), st.2 ++ [mkGlyph (load i) st.1 w]))
    st

/-- `font.rs` `FontAtlas::new`, given the FreeType load results, the handle
of the freshly created GPU texture, and the requested font size.
`glyph_height` is the hardcoded `char_height = 64.0` of the source. -/
def FontAtlas.new (load : ℕ → RasterGlyph) (tex : ℕ) (font_size : ℚ) : FontAtlas :=
  { texture := tex
    texture_dimensions := (atlasWidth load, atlasHeight load)
    glyph_height := 64
    font_size := font_size
    glyphs := (glyphPass load (atlasWidth load) (List.range 128) (0, [])).2 }

/-- `font.rs` `FontAtlas::get_glyph`: codes at or above 128 miss; below 128
the glyph table is indexed (the source indexing would panic only if the
table were shorter than 128, which no built atlas is; the model returns
`none` there as well). -/
def FontAtlas.get_glyph (a : FontAtlas) (c : ℕ) : Option Glyph :=
  if 128 ≤ c then none else a.glyphs[c]?

/-- The `Font` of `font.rs`: an atlas plus a name. -/
structure Font where
  atlas : FontAtlas
  name : String
  deriving DecidableEq

/-- The `Text` primitive of `primitives/text.rs`.  The unused `shadow`
field (declared but never read by vertex emission) is omitted.  Characters
are represented by their code points. -/
structure Text where
  text : List ℕ
  text_size : ℚ
  position : Point
  font : Option Font
  color : Color
  offset : Point
  deriving DecidableEq

/-- The 6 vertices of one glyph quad (two triangles), as pushed by both
`Text::get_vertices` and `Frame::add_text`.  `tx` is the u texture offset
(`glyph.texture_x`, plus the constant `off = 0.0` in `text.rs`). -/
def glyphQuad (glyph : Glyph) (tx x2 y2 w h : ℚ) (color : Color) (texw texh : ℚ) :
    List Vertex :=
  [ { position := (x2, -y2), tex_coords := (tx, 0), color := color },
    { position := (x2 + w, -y2),
      tex_coords := (tx + glyph.bitmap_width / texw, 0), color := color },
    { position := (x2, -y2 + h),
      tex_coords := (tx, glyph.bitmap_height / texh), color := color },
    { position := (x2 + w, -y2),
      tex_coords := (tx + glyph.bitmap_width / texw, 0), color := color },
    { position := (x2, -y2 + h),
      tex_coords := (tx, glyph.bitmap_height / texh), color := color },
    { position := (x2 + w, -y2 + h),
      tex_coords := (tx + glyph.bitmap_width / texw, glyph.bitmap_height / texh),
      color := color } ]

/-- The character loop of `text.rs` `Text::get_vertices`, with the per-glyph
scale factor `rat` abstracted (the source hardcodes it; see
`Text.get_vertices`).  State is the pen position and the vertex buffer.
A missing glyph is `unwrap`ped by the source, i.e. a panic: `none`.
Zero-width or zero-height glyphs are skipped after the pen advance. -/
def textVerticesLoop (atlas : FontAtlas) (color : Color) (rat : ℚ) :
    ℚ × ℚ × List Vertex → List ℕ → Option (ℚ × ℚ × List Vertex)
  | st, [] => some st
  | (x, y, buf), c :: cs =>
    match atlas.get_glyph c with
    | none => none
    | some glyph =>
      let off : ℚ := 0
      let x2 := x + glyph.bitmap_left * rat
      let y2 := -y + glyph.bitmap_top * rat
      let w := glyph.bitmap_width * rat
      let h := glyph.bitmap_height * rat
      let xn := x + glyph.advance_x * rat
      let yn := y + glyph.advance_y * rat
      if w = 0 ∨ h = 0 then
        textVerticesLoop atlas color rat (xn, yn, buf) cs
      else
        textVerticesLoop atlas color rat
          (xn, yn, buf ++ glyphQuad glyph (glyph.texture_x + off) x2 y2 w h color
            (atlas.texture_dimensions.1 : ℚ) (atlas.texture_dimensions.2 : ℚ)) cs

/-- The bounding-box fold of the source: minima seeded with `f32::MAX`,
maxima with `f32::MIN`, folded over the vertex positions.  Result order:
(min x, min y, max x, max y). -/
def bboxFold (buf : List Vertex) : ℚ × ℚ × ℚ × ℚ :=
  buf.foldl
    (fun mm v =>
      (min mm.1 v.position.1, min mm.2.1 v.position.2,
       max mm.2.2.1 v.position.1, max mm.2.2.2 v.position.2))
    (f32MAX, f32MAX, f32MIN, f32MIN)

/-- `text.rs` `Text::get_vertices`: unwraps the font (panic if absent), runs
the character loop with the hardcoded scale factor `0.69` (the
`self.text_size / glyph.bitmap_height` computation is commented out in the
source), then shifts every vertex by the anchor-offset post-pass, which
subtracts `width * offset.x` from x and `height * (offset.y - 1.0)` from y. -/
def Text.get_vertices (t : Text) : Option (List Vertex) :=
  match t.font with
  | none => none
  | some font =>
    match textVerticesLoop font.atlas t.color (69 / 100)
        (t.position.1, t.position.2, []) t.text with
    | none => none
    | some st =>
      let buf := st.2.2
      let mm := bboxFold buf
      let width := mm.2.2.1 - mm.1
      let height := mm.2.2.2 - mm.2.1
      some (buf.map (fun v =>
        { v with position := (v.position.1 - width * t.offset.1,
                              v.position.2 - height * (t.offset.2 - 1)) }))

/-- Modelled from the spec: the variant of `Text::get_vertices` the claims
describe, whose per-glyph scale factor is `requested_size / atlas_nominal_size`
instead of the hardcoded `0.69`.  Only the scale factor differs from
`Text.get_vertices`. -/
def Text.get_vertices_specScale (t : Text) : Option (List Vertex) :=
  match t.font with
  | none => none
  | some font =>
    match textVerticesLoop font.atlas t.color (t.text_size / font.atlas.font_size)
        (t.position.1, t.position.2, []) t.text with
    | none => none
    | some st =>
      let buf := st.2.2
      let mm := bboxFold buf
      let width := mm.2.2.1 - mm.1
      let height := mm.2.2.2 - mm.2.1
      some (buf.map (fun v =>
        { v with position := (v.position.1 - width * t.offset.1,
                              v.position.2 - height * (t.offset.2 - 1)) }))

/-- Modelled from the spec: the variant of `Text::get_vertices` the claims
describe, whose anchor post-pass subtracts `bbox_size * anchor_offset` from
every vertex, i.e. `height * offset.y` from y rather than the source's
`height * (offset.y - 1.0)`.  Only the post-pass differs from
`Text.get_vertices`. -/
def Text.get_vertices_specAnchor (t : Text) : Option (List Vertex) :=
  match t.font with
  | none => none
  | some font =>
    match textVerticesLoop font.atlas t.color (69 / 100)
        (t.position.1, t.position.2, []) t.text with
    | none => none
    | some st =>
      let buf := st.2.2
      let mm := bboxFold buf
      let width := mm.2.2.1 - mm.1
      let height := mm.2.2.2 - mm.2.1
      some (buf.map (fun v =>
        { v with position := (v.position.1 - width * t.offset.1,
                              v.position.2 - height * t.offset.2) }))

/-- The character loop of `frame.rs` `Frame::add_text` (identical to the
`text.rs` loop except that the scale factors are `sx`/`sy` and no `off`
constant is added to the texture offset). -/
def addTextLoop (atlas : FontAtlas) (color : Color) (sx sy : ℚ) :
    ℚ × ℚ × List Vertex → List ℕ → Option (ℚ × ℚ × List Vertex)
  | st, [] => some st
  | (x, y, buf), c :: cs =>
    match atlas.get_glyph c with
    | none => none
    | some glyph =>
      let x2 := x + glyph.bitmap_left * sx
      let y2 := -y + glyph.bitmap_top * sy
      let w := glyph.bitmap_width * sx
      let h := glyph.bitmap_height * sy
      let xn := x + glyph.advance_x * sx
      let yn := y + glyph.advance_y * sy
      if w = 0 ∨ h = 0 then
        addTextLoop atlas color sx sy (xn, yn, buf) cs
      else
        addTextLoop atlas color sx sy
          (xn, yn, buf ++ glyphQuad glyph glyph.texture_x x2 y2 w h color
            (atlas.texture_dimensions.1 : ℚ) (atlas.texture_dimensions.2 : ℚ)) cs

/-- `frame.rs` `Frame::add_text`: scale factors are `scale / 20.0`; when
`centered` the bounding box is computed and half its extent subtracted from
every vertex; the result extends the text buffer.  The source resolves the
atlas as `self.overlay.fonts[self.overlay.current_font]`; that resolved
atlas is the `atlas` parameter here. -/
def Frame.add_text (f : Frame) (atlas : FontAtlas) (position : Point) (text : List ℕ)
    (color : Color) (centered : Bool) (scale : ℚ) : Option Frame :=
  let sx := scale / 20
  let sy := scale / 20
  match addTextLoop atlas color sx sy (position.1, position.2, []) text with
  | none => none
  | some st =>
    let buf := st.2.2
    let buf :=
      if centered then
        let mm := bboxFold buf
        let width := mm.2.2.1 - mm.1
        let height := mm.2.2.2 - mm.2.1
        buf.map (fun v =>
          { v with position := (v.position.1 - width / 2, v.position.2 - height / 2) })
      else buf
    some { f with text_buffer := f.text_buffer ++ buf }

/-- The `Overlay` state relevant to the claims (`lib.rs`): the font registry
(a map from caller-assigned ids, modelled as an association list) and the
font stack. -/
structure Overlay where
  fonts : List (ℕ × Font)
  font_stack : List ℕ
  deriving DecidableEq

/-- Lookup in the font registry (`self.fonts.get(id)` / `self.fonts[id]`). -/
def Overlay.fontsGet (o : Overlay) (id : ℕ) : Option Font :=
  (o.fonts.find? (fun p => p.1 == id)).map Prod.snd

/-- `lib.rs` `Overlay::current_font`: the font registered under the id on
top of the font stack; `none` if the stack is empty or the id unknown. -/
def Overlay.current_font (o : Overlay) : Option Font :=
  o.font_stack.getLast?.bind (fun id => o.fontsGet id)

/-- The closed set of primitives accepted by `Frame::add`
(`primitives/mod.rs`).  Line, rectangle and triangle carry their structs;
triangle is a pass-through of three vertices. -/
inductive Prim where
  | lineP (start endp : Point) (thickness : ℚ) (color : Color)
  | rectangleP (color : Color) (dimensions position : Point)
  | circleP (c : CirclePrim)
  | triangleP (v1 v2 v3 : Vertex)
  | textP (t : Text)
  deriving DecidableEq

/-- `get_vertices` of each non-text primitive plus the text case:
`line.rs` delegates to `get_line`, `rectangle.rs` emits two UV-mapped
triangles from position and dimensions, `triangle.rs` passes its vertices
through, `circle.rs` and `text.rs` as modelled above. -/
def Prim.get_vertices (cosQ sinQ : ℚ → ℚ) : Prim → Option (List Vertex)
  | .lineP s e th col => some (get_line s e col th)
  | .rectangleP col dims pos =>
    some
      [ { position := (pos.1, pos.2), tex_coords := (0, 0), color := col },
        { position := (pos.1 + dims.1, pos.2), tex_coords := (1, 0), color := col },
        { position := (pos.1 + dims.1, pos.2 + dims.2), tex_coords := (1, 1), color := col },
        { position := (pos.1, pos.2), tex_coords := (0, 0), color := col },
        { position := (pos.1, pos.2 + dims.2), tex_coords := (0, 1), color := col },
        { position := (pos.1 + dims.1, pos.2 + dims.2), tex_coords := (1, 1), color := col } ]
  | .circleP c => some (c.get_vertices cosQ sinQ)
  | .triangleP v1 v2 v3 => some [v1, v2, v3]
  | .textP t => t.get_vertices

/-- `frame.rs` `Frame::add`: the text arm (the source's tag-checked
transmute) resolves a missing font to `self.overlay.fonts[0]` (a silent
fallback; the indexing panics only if id 0 is unregistered) and extends the
text buffer; every other primitive extends the shape buffer. -/
def Frame.add (cosQ sinQ : ℚ → ℚ) (o : Overlay) (f : Frame) (p : Prim) : Option Frame :=
  match p with
  | .textP t =>
    let resolved : Option Text :=
      match t.font with
      | none => (o.fontsGet 0).map (fun f0 => { t with font := some f0 })
      | some _ => some t
    match resolved with
    | none => none
    | some t2 =>
      match t2.get_vertices with
      | none => none
      | some vs => some { f with text_buffer := f.text_buffer ++ vs }
  | p =>
    match p.get_vertices cosQ sinQ with
    | none => none
    | some vs => some { f with shape_buffer := f.shape_buffer ++ vs }

/-! Concrete fixtures used by witnesses and counterexamples. -/

/-- Opaque white, `DEFAULT_COLOR` in `primitives/mod.rs`. -/
def white : Color := (1, 1, 1, 1)

/-- A concrete FreeType outcome: every code rasterizes successfully to a
1x2-pixel bitmap with bearing (0,1) and advance 1.0 (64 in 26.6 fixed
point). -/
def demoLoad : ℕ → RasterGlyph := fun _ =>
  { width := 1, rows := 2, left := 0, top := 1, advance_x := 64, advance_y := 0, ok := true }

/-- A font built from `demoLoad` at nominal size 24, GPU texture handle 1. -/
def demoFontA : Font := { atlas := FontAtlas.new demoLoad 1 24, name := "A" }

/-- A second font over the same glyphs but a distinct GPU texture handle. -/
def demoFontB : Font := { atlas := FontAtlas.new demoLoad 2 24, name := "B" }

/-- A concrete FreeType outcome where the load of code 65 reports failure
while the glyph slot still holds a 2x3 bitmap (its contents after the failed
call). -/
def failLoad : ℕ → RasterGlyph := fun i =>
  { width := 2, rows := 3, left := 1, top := 2, advance_x := 128, advance_y := 0,
    ok := i != 65 }

/-! Characterization of the atlas construction: closed forms for the two
passes of `FontAtlas::new`. -/

/-- The running horizontal offset assigned to code `i` by the second pass:
the sum of `width + 1` over all earlier codes. -/
def runX (load : ℕ → RasterGlyph) (i : ℕ) : ℕ :=
  ((List.range i).map (fun j => (load j).width + 1)).sum

/-- The glyph list the second pass is expected to produce on a code list,
starting from offset `x`. -/
def glyphSpecList (load : ℕ → RasterGlyph) (w : ℕ) : List ℕ → ℕ → List Glyph
  | [], _ => []
  | c :: cs, x => mkGlyph (load c) x w :: glyphSpecList load w cs (x + ((load c).width + 1))

lemma glyphPass_fst (load : ℕ → RasterGlyph) (w : ℕ) :
    ∀ (codes : List ℕ) (x : ℕ) (acc : List Glyph),
      (glyphPass load w codes (x, acc)).1 = x + (codes.map (fun c => (load c).width + 1)).sum := by
  intro codes
  induction codes with
  | nil => intro x acc; simp [glyphPass]
  | cons c cs ih =>
    intro x acc
    simpa [glyphPass, List.foldl_cons, add_assoc] using ih (x + ((load c).width + 1)) _

lemma glyphPass_snd (load : ℕ → RasterGlyph) (w : ℕ) :
    ∀ (codes : List ℕ) (x : ℕ) (acc : List Glyph),
      (glyphPass load w codes (x, acc)).2 = acc ++ glyphSpecList load w codes x := by
  intro codes
  induction codes with
  | nil => intro x acc; simp [glyphPass, glyphSpecList]
  | cons c cs ih =>
    intro x acc
    have h := ih (x + ((load c).width + 1)) (acc ++ [mkGlyph (load c) x w])
    simp only [glyphPass, List.foldl_cons] at h ⊢
    simp [h, glyphSpecList]

lemma glyphSpecList_append (load : ℕ → RasterGlyph) (w : ℕ) :
    ∀ (l1 l2 : List ℕ) (x : ℕ),
      glyphSpecList load w (l1 ++ l2) x =
        glyphSpecList load w l1 x ++
          glyphSpecList load w l2 (x + (l1.map (fun c => (load c).width + 1)).sum) := by
  intro l1
  induction l1 with
  | nil => intro l2 x; simp [glyphSpecList]
  | cons c cs ih =>
    intro l2 x
    simp [glyphSpecList, ih, add_assoc]

lemma glyphSpecList_range (load : ℕ → RasterGlyph) (w : ℕ) :
    ∀ n, glyphSpecList load w (List.range n) 0 =
      (List.range n).map (fun i => mkGlyph (load i) (runX load i) w) := by
  intro n
  induction n with
  | zero => simp [glyphSpecList]
  | succ n ih =>
    rw [List.range_succ, glyphSpecList_append, ih, List.map_append]
    simp [glyphSpecList, runX]

lemma atlasWidth_eq (load : ℕ → RasterGlyph) :
    atlasWidth load = ((List.range 128).map (fun i => (load i).width + 1)).sum := by
  have h : ∀ (l : List ℕ) (a : ℕ),
      l.foldl (fun wa i => wa + ((load i).width + 1)) a =
        a + (l.map (fun i => (load i).width + 1)).sum := by
    intro l
    induction l with
    | nil => intro a; simp
    | cons c cs ih => intro a; simp [List.foldl_cons, ih, add_assoc]
  simpa [atlasWidth] using h (List.range 128) 0

lemma atlasWidth_eq_runX (load : ℕ → RasterGlyph) : atlasWidth load = runX load 128 := by
  rw [atlasWidth_eq]; rfl

/-- The glyph table of a built atlas, in closed form: code `i` gets exactly
`mkGlyph (load i) (runX load i) (atlasWidth load)`. -/
lemma atlas_glyphs_eq (load : ℕ → RasterGlyph) (tex : ℕ) (fs : ℚ) :
    (FontAtlas.new load tex fs).glyphs =
      (List.range 128).map (fun i => mkGlyph (load i) (runX load i) (atlasWidth load)) := by
  show (glyphPass load (atlasWidth load) (List.range 128) (0, [])).2 = _
  rw [glyphPass_snd, glyphSpecList_range]
  simp

lemma runX_succ (load : ℕ → RasterGlyph) (i : ℕ) :
    runX load (i + 1) = runX load i + ((load i).width + 1) := by
  simp [runX, List.range_succ]

lemma runX_mono (load : ℕ → RasterGlyph) : Monotone (runX load) := by
  apply monotone_nat_of_le_succ
  intro n
  rw [runX_succ]
  omega

lemma runX_lt_of_lt (load : ℕ → RasterGlyph) {i j : ℕ} (h : i < j) :
    runX load i < runX load j := by
  have h1 : runX load i < runX load (i + 1) := by rw [runX_succ]; omega
  exact lt_of_lt_of_le h1 (runX_mono load h)

lemma atlasWidth_pos (load : ℕ → RasterGlyph) : 0 < atlasWidth load := by
  rw [atlasWidth_eq_runX]
  exact lt_of_lt_of_le (by simp [runX]) (runX_mono load (by omega : 1 ≤ 128))

lemma le_foldl_max (g : ℕ → ℕ) :
    ∀ (l : List ℕ) (a : ℕ), a ≤ l.foldl (fun h x => max h (g x)) a := by
  intro l
  induction l with
  | nil => intro a; exact le_refl a
  | cons c cs ih =>
    intro a
    exact le_trans (le_max_left a (g c)) (ih (max a (g c)))

lemma foldl_max_le (g : ℕ → ℕ) :
    ∀ (l : List ℕ) (a : ℕ) (i : ℕ), i ∈ l → g i ≤ l.foldl (fun h x => max h (g x)) a := by
  intro l
  induction l with
  | nil => intro a i hi; simp at hi
  | cons c cs ih =>
    intro a i hi
    rcases List.mem_cons.mp hi with h | h
    · subst h
      exact le_trans (le_max_right a (g i)) (le_foldl_max g cs (max a (g i)))
    · exact ih (max a (g c)) i h

lemma foldl_max_attained (g : ℕ → ℕ) :
    ∀ (l : List ℕ) (a : ℕ),
      l.foldl (fun h x => max h (g x)) a = a ∨
        ∃ i ∈ l, l.foldl (fun h x => max h (g x)) a = g i := by
  intro l
  induction l with
  | nil => intro a; left; rfl
  | cons c cs ih =>
    intro a
    rcases ih (max a (g c)) with h | ⟨i, hi, h⟩
    · simp only [List.foldl_cons, h]
      rcases max_choice a (g c) with h2 | h2
      · left; exact h2
      · right; exact ⟨c, List.mem_cons_self c cs, h2⟩
    · right
      exact ⟨i, List.mem_cons_of_mem c hi, by simpa [List.foldl_cons] using h⟩

lemma atlas_getElem (load : ℕ → RasterGlyph) (tex : ℕ) (fs : ℚ) (i : ℕ) :
    (FontAtlas.new load tex fs).glyphs[i]? =
      if i < 128 then some (mkGlyph (load i) (runX load i) (atlasWidth load)) else none := by
  rw [atlas_glyphs_eq, List.getElem?_map]
  by_cases h : i < 128
  · rw [List.getElem?_range h]
    simp [h]
  · rw [List.getElem?_eq_none (by simpa using Nat.le_of_not_lt h)]
    simp [h]

/-- C3: for every font atlas built over the 128 character codes, the atlas
pixel width is the sum over all codes of `width + 1`, the height is the
maximum of the bitmap heights (an upper bound that is attained), and the
recorded normalized horizontal offsets `texture_x` are monotonically
non-decreasing in code order and lie within `[0, 1)`. -/
theorem C3_atlas_packing (load : ℕ → RasterGlyph) (tex : ℕ) (fs : ℚ) :
    (FontAtlas.new load tex fs).texture_dimensions.1
        = ((List.range 128).map (fun i => (load i).width + 1)).sum
    ∧ (∀ i, i < 128 → (load i).rows ≤ (FontAtlas.new load tex fs).texture_dimensions.2)
    ∧ (∃ i, i < 128 ∧ (load i).rows = (FontAtlas.new load tex fs).texture_dimensions.2)
    ∧ (∀ (i j : ℕ) (gi gj : Glyph), i ≤ j →
        (FontAtlas.new load tex fs).glyphs[i]? = some gi →
        (FontAtlas.new load tex fs).glyphs[j]? = some gj →
        gi.texture_x ≤ gj.texture_x)
    ∧ (∀ (i : ℕ) (g : Glyph), (FontAtlas.new load tex fs).glyphs[i]? = some g →
        0 ≤ g.texture_x ∧ g.texture_x < 1) := by
  have hdim2 : (FontAtlas.new load tex fs).texture_dimensions.2 = atlasHeight load := rfl
  have hWpos : (0 : ℚ) < (atlasWidth load : ℚ) := by
    exact_mod_cast atlasWidth_pos load
  refine ⟨by simpa using atlasWidth_eq load, ?_, ?_, ?_, ?_⟩
  · intro i hi
    rw [hdim2]
    simpa [atlasHeight] using
      foldl_max_le (fun i => (load i).rows) (List.range 128) 0 i (List.mem_range.mpr hi)
  · rw [hdim2]
    rcases foldl_max_attained (fun i => (load i).rows) (List.range 128) 0 with h | ⟨i, hi, h⟩
    · refine ⟨0, by omega, ?_⟩
      have hle : (load 0).rows ≤ atlasHeight load := by
        simpa [atlasHeight] using foldl_max_le (fun i => (load i).rows) (List.range 128) 0 0
          (List.mem_range.mpr (by omega))
      have hz : atlasHeight load = 0 := by simpa [atlasHeight] using h
      omega
    · have hx : atlasHeight load = (load i).rows := by simpa [atlasHeight] using h
      exact ⟨i, List.mem_range.mp hi, hx.symm⟩
  · intro i j gi gj hij hgi hgj
    rw [atlas_getElem] at hgi hgj
    by_cases hi : i < 128
    · by_cases hj : j < 128
      · rw [if_pos hi] at hgi
        rw [if_pos hj] at hgj
        obtain rfl : mkGlyph (load i) (runX load i) (atlasWidth load) = gi :=
          Option.some.inj hgi
        obtain rfl : mkGlyph (load j) (runX load j) (atlasWidth load) = gj :=
          Option.some.inj hgj
        simp only [mkGlyph]
        exact div_le_div_of_nonneg_right (by exact_mod_cast runX_mono load hij)
          (le_of_lt hWpos)
      · rw [if_neg hj] at hgj; exact absurd hgj (by simp)
    · rw [if_neg hi] at hgi; exact absurd hgi (by simp)
  · intro i g hg
    rw [atlas_getElem] at hg
    by_cases hi : i < 128
    · rw [if_pos hi] at hg
      obtain rfl : mkGlyph (load i) (runX load i) (atlasWidth load) = g :=
        Option.some.inj hg
      simp only [mkGlyph]
      constructor
      · exact div_nonneg (Nat.cast_nonneg _) (Nat.cast_nonneg _)
      · rw [div_lt_one hWpos]
        have hlt : runX load i < atlasWidth load := by
          rw [atlasWidth_eq_runX]
          exact runX_lt_of_lt load hi
        exact_mod_cast hlt
    · rw [if_neg hi] at hg; exact absurd hg (by simp)

/-- Witness for C3: the monotonicity and range conclusions evaluated at the
concrete `demoLoad` atlas, codes 0 and 1. -/
theorem C3_witness :
    (mkGlyph (demoLoad 0) 0 256).texture_x ≤ (mkGlyph (demoLoad 1) 2 256).texture_x ∧
      (0 ≤ (mkGlyph (demoLoad 1) 2 256).texture_x ∧ (mkGlyph (demoLoad 1) 2 256).texture_x < 1) :=
  ⟨(C3_atlas_packing demoLoad 1 24).2.2.2.1 0 1 _ _ (by omega)
      (by with_unfolding_all decide) (by with_unfolding_all decide),
   (C3_atlas_packing demoLoad 1 24).2.2.2.2 1 _ (by with_unfolding_all decide)⟩

/-- The metric fields of a load result: everything the atlas build reads
(the success flag `ok` is not among them). -/
def RasterGlyph.metrics (g : RasterGlyph) : ℕ × ℕ × ℤ × ℤ × ℤ × ℤ :=
  (g.width, g.rows, g.left, g.top, g.advance_x, g.advance_y)

lemma mkGlyph_congr {g1 g2 : RasterGlyph} (h : g1.metrics = g2.metrics) (x w : ℕ) :
    mkGlyph g1 x w = mkGlyph g2 x w := by
  cases g1
  cases g2
  simp only [RasterGlyph.metrics, Prod.mk.injEq] at h
  obtain ⟨h1, h2, h3, h4, h5, h6⟩ := h
  simp [mkGlyph, h1, h2, h3, h4, h5, h6]

lemma glyphSpecList_congr (load load2 : ℕ → RasterGlyph)
    (h : ∀ i, (load i).metrics = (load2 i).metrics) (w : ℕ) :
    ∀ (l : List ℕ) (x : ℕ), glyphSpecList load w l x = glyphSpecList load2 w l x := by
  have hwidth : ∀ i, (load i).width = (load2 i).width :=
    fun i => congrArg Prod.fst (h i)
  intro l
  induction l with
  | nil => intro x; rfl
  | cons c cs ih =>
    intro x
    simp [glyphSpecList, mkGlyph_congr (h c), hwidth c, ih]

lemma atlasWidth_congr (load load2 : ℕ → RasterGlyph)
    (h : ∀ i, (load i).metrics = (load2 i).metrics) :
    atlasWidth load = atlasWidth load2 := by
  have hwidth : ∀ i, (load i).width = (load2 i).width :=
    fun i => congrArg Prod.fst (h i)
  unfold atlasWidth
  exact List.foldl_ext _ _ 0 (fun a b _ => by rw [hwidth b])

lemma atlasHeight_congr (load load2 : ℕ → RasterGlyph)
    (h : ∀ i, (load i).metrics = (load2 i).metrics) :
    atlasHeight load = atlasHeight load2 := by
  have hrows : ∀ i, (load i).rows = (load2 i).rows :=
    fun i => congrArg (fun m => m.2.1) (h i)
  unfold atlasHeight
  exact List.foldl_ext _ _ 0 (fun a b _ => by rw [hrows b])

/-- C4 (amended): a character code whose rasterization fails is logged but
NOT skipped.  The atlas build reads only the glyph-slot metrics, never the
load call's success flag, so two load outcomes that agree on metrics build
identical atlases; every code below 128 still gets a glyph-table entry
(the table always has 128 entries and `get_glyph` returns `some` for every
code below 128), and the build as a whole succeeds. -/
theorem C4_failed_glyph_not_skipped (load load2 : ℕ → RasterGlyph) (tex : ℕ) (fs : ℚ)
    (h : ∀ i, (load i).metrics = (load2 i).metrics) :
    FontAtlas.new load tex fs = FontAtlas.new load2 tex fs
    ∧ (FontAtlas.new load tex fs).glyphs.length = 128
    ∧ ∀ c, c < 128 → ((FontAtlas.new load tex fs).get_glyph c).isSome = true := by
  have hW := atlasWidth_congr load load2 h
  have hH := atlasHeight_congr load load2 h
  refine ⟨?_, ?_, ?_⟩
  · have hglyphs : ∀ w, (glyphPass load w (List.range 128) (0, [])).2 =
        (glyphPass load2 w (List.range 128) (0, [])).2 := by
      intro w
      rw [glyphPass_snd, glyphPass_snd, glyphSpecList_congr load load2 h w]
    unfold FontAtlas.new
    rw [hW, hH, hglyphs (atlasWidth load2)]
  · rw [atlas_glyphs_eq]
    simp
  · intro c hc
    unfold FontAtlas.get_glyph
    rw [if_neg (by omega), atlas_getElem, if_pos hc]
    rfl

/-- Counterexample to C4 as stated: with `failLoad`, code 65 fails to load,
yet the atlas still records 128 glyph entries, `get_glyph 65` returns a
glyph (not "no glyph"), and the atlas width 384 = 128 * (2 + 1) includes the
failed slot's `width + 1` contribution instead of zero. -/
theorem C4_counterexample :
    (failLoad 65).ok = false
    ∧ (FontAtlas.new failLoad 7 24).glyphs.length = 128
    ∧ ((FontAtlas.new failLoad 7 24).get_glyph 65).isSome = true
    ∧ (FontAtlas.new failLoad 7 24).texture_dimensions.1 = 384 := by
  refine ⟨rfl, ?_, ?_, ?_⟩ <;> with_unfolding_all decide

/-- Witness for C4: the amended theorem applied to `failLoad` and its
fully-successful variant, at code 65. -/
theorem C4_witness :
    FontAtlas.new failLoad 7 24 =
      FontAtlas.new (fun i => { failLoad i with ok := true }) 7 24
    ∧ ((FontAtlas.new failLoad 7 24).get_glyph 65).isSome = true :=
  ⟨(C4_failed_glyph_not_skipped failLoad (fun i => { failLoad i with ok := true }) 7 24
      (fun _ => rfl)).1,
   (C4_failed_glyph_not_skipped failLoad (fun i => { failLoad i with ok := true }) 7 24
      (fun _ => rfl)).2.2 65 (by omega)⟩

lemma get_glyph_none_of_ge (a : FontAtlas) {c : ℕ} (hc : 128 ≤ c) :
    a.get_glyph c = none := by
  unfold FontAtlas.get_glyph
  rw [if_pos hc]

lemma textVerticesLoop_none (atlas : FontAtlas) (color : Color) (rat : ℚ) :
    ∀ (cs : List ℕ) (st : ℚ × ℚ × List Vertex) (c : ℕ), c ∈ cs → 128 ≤ c →
      textVerticesLoop atlas color rat st cs = none := by
  intro cs
  induction cs with
  | nil => intro st c hc _; simp at hc
  | cons c0 cs ih =>
    intro st c hc hge
    obtain ⟨x, y, buf⟩ := st
    rcases List.mem_cons.mp hc with rfl | hmem
    · simp [textVerticesLoop, get_glyph_none_of_ge atlas hge]
    · cases hg : atlas.get_glyph c0 with
      | none => simp [textVerticesLoop, hg]
      | some glyph =>
        simp only [textVerticesLoop, hg]
        split
        · exact ih _ c hmem hge
        · exact ih _ c hmem hge

lemma addTextLoop_none (atlas : FontAtlas) (color : Color) (sx sy : ℚ) :
    ∀ (cs : List ℕ) (st : ℚ × ℚ × List Vertex) (c : ℕ), c ∈ cs → 128 ≤ c →
      addTextLoop atlas color sx sy st cs = none := by
  intro cs
  induction cs with
  | nil => intro st c hc _; simp at hc
  | cons c0 cs ih =>
    intro st c hc hge
    obtain ⟨x, y, buf⟩ := st
    rcases List.mem_cons.mp hc with rfl | hmem
    · simp [addTextLoop, get_glyph_none_of_ge atlas hge]
    · cases hg : atlas.get_glyph c0 with
      | none => simp [addTextLoop, hg]
      | some glyph =>
        simp only [addTextLoop, hg]
        split
        · exact ih _ c hmem hge
        · exact ih _ c hmem hge

/-- C1 (amended): a character code at or above 128 is indeed a lookup miss
(`get_glyph` returns `none`, no crash at lookup level), but the text
tessellators do NOT skip such a character: both `Text::get_vertices` and
`Frame::add_text` `unwrap` the lookup and hence panic (`none` in the model)
on any string containing a character outside the supported range. -/
theorem C1_missing_glyph :
    (∀ (a : FontAtlas) (c : ℕ), 128 ≤ c → a.get_glyph c = none)
    ∧ (∀ (t : Text) (c : ℕ), c ∈ t.text → 128 ≤ c → t.get_vertices = none)
    ∧ (∀ (f : Frame) (atlas : FontAtlas) (pos : Point) (txt : List ℕ) (col : Color)
        (cen : Bool) (sc : ℚ) (c : ℕ), c ∈ txt → 128 ≤ c →
        Frame.add_text f atlas pos txt col cen sc = none) := by
  refine ⟨fun a c hc => get_glyph_none_of_ge a hc, ?_, ?_⟩
  · intro t c hc hge
    rcases ht : t.font with _ | font
    · simp [Text.get_vertices, ht]
    · simp [Text.get_vertices, ht,
        textVerticesLoop_none font.atlas t.color (69 / 100) t.text
          (t.position.1, t.position.2, ([] : List Vertex)) c hc hge]
  · intro f atlas pos txt col cen sc c hc hge
    simp [Frame.add_text,
      addTextLoop_none atlas col (sc / 20) (sc / 20) txt
        (pos.1, pos.2, ([] : List Vertex)) c hc hge]

/-- A text over `demoFontA` containing the out-of-range character 200. -/
def tC1 : Text :=
  { text := [65, 200, 66], text_size := 12, position := (0, 0),
    font := some demoFontA, color := white, offset := (0, 0) }

/-- The same text with the out-of-range character removed. -/
def tC1skip : Text :=
  { text := [65, 66], text_size := 12, position := (0, 0),
    font := some demoFontA, color := white, offset := (0, 0) }

/-- Counterexample to C1 as stated: tessellating a string that contains the
character 200 panics (models as `none`) in both `Text::get_vertices` and
`Frame::add_text`, while the claim demands it behave like the string with
the character absent, which tessellates fine. -/
theorem C1_counterexample :
    Text.get_vertices tC1 = none
    ∧ Text.get_vertices tC1skip ≠ none
    ∧ Frame.add_text frame0 demoFontA.atlas (0, 0) [65, 200, 66] white false 12 = none
    ∧ Frame.add_text frame0 demoFontA.atlas (0, 0) [65, 66] white false 12 ≠ none := by
  refine ⟨?_, ?_, ?_, ?_⟩ <;> with_unfolding_all decide

/-- Witness for C1: the amended theorem applied at character 200 over the
concrete `demoFontA` atlas. -/
theorem C1_witness :
    demoFontA.atlas.get_glyph 200 = none
    ∧ Text.get_vertices tC1 = none
    ∧ Frame.add_text frame0 demoFontA.atlas (0, 0) [65, 200, 66] white false 12 = none :=
  ⟨C1_missing_glyph.1 demoFontA.atlas 200 (by omega),
   C1_missing_glyph.2.1 tC1 200 (by with_unfolding_all decide) (by omega),
   C1_missing_glyph.2.2 frame0 demoFontA.atlas (0, 0) [65, 200, 66] white false 12 200
     (by decide) (by omega)⟩

/-- C9: with `detail = 0` both circle tessellators iterate over an empty
range: the primitive emits zero vertices and `Frame::add_circle` leaves the
frame unchanged, for every filled flag and border/outline configuration and
every `cos`/`sin` behaviour, with no panic (totality of the model). -/
theorem C9_circle_detail_zero (cosQ sinQ : ℚ → ℚ) (c : CirclePrim) (fc : FrameCircle)
    (f : Frame) (h1 : c.detail = 0) (h2 : fc.detail = 0) :
    CirclePrim.get_vertices cosQ sinQ c = [] ∧ Frame.add_circle cosQ sinQ f fc = f := by
  constructor
  · unfold CirclePrim.get_vertices
    rw [h1]
    rfl
  · unfold Frame.add_circle
    rw [h2]
    rfl

/-- A degenerate circle primitive: `detail = 0`, filled, with a border. -/
def circleC9 : CirclePrim :=
  { position := (3, 4), color := white, radius := 5, filled := true, detail := 0,
    border := some { thickness := 2, color := white } }

/-- The degenerate `frame.rs` circle with `detail = 0`. -/
def frameCircleC9 : FrameCircle :=
  { center := (3, 4), radius := 5, color := white, detail := 0, filled := true,
    thickness := 2 }

/-- Witness for C9: the theorem applied to concrete degenerate circles. -/
theorem C9_witness :
    CirclePrim.get_vertices (fun _ => 0) (fun _ => 0) circleC9 = []
    ∧ Frame.add_circle (fun _ => 0) (fun _ => 0) frame0 frameCircleC9 = frame0 :=
  C9_circle_detail_zero (fun _ => 0) (fun _ => 0) circleC9 frameCircleC9 frame0 rfl rfl

lemma addTextLoop_congr (a1 a2 : FontAtlas) (hg : a1.glyphs = a2.glyphs)
    (hd : a1.texture_dimensions = a2.texture_dimensions) (color : Color) (sx sy : ℚ) :
    ∀ (cs : List ℕ) (st : ℚ × ℚ × List Vertex),
      addTextLoop a1 color sx sy st cs = addTextLoop a2 color sx sy st cs := by
  intro cs
  induction cs with
  | nil => intro st; rfl
  | cons c cs ih =>
    intro st
    obtain ⟨x, y, buf⟩ := st
    have hgl : a1.get_glyph c = a2.get_glyph c := by
      unfold FontAtlas.get_glyph
      rw [hg]
    simp only [addTextLoop, hgl, hd]
    cases a2.get_glyph c with
    | none => rfl
    | some glyph =>
      simp only
      split
      · exact ih _
      · exact ih _

/-- C7 (amended): the per-glyph scale factor is NOT
`requested_size / atlas_nominal_size`.  `Text::get_vertices` uses the
hardcoded constant `0.69` — its output is independent of the requested
`text_size` — and `Frame::add_text` uses `scale / 20.0` — its output is
independent of the atlas's nominal `font_size`.  (The factor that IS used
is applied uniformly: both loops multiply bitmap dimensions, bearing
offsets and advances by the same single factor.) -/
theorem C7_scale_hardcoded :
    (∀ (t : Text) (s : ℚ), Text.get_vertices { t with text_size := s } = Text.get_vertices t)
    ∧ (∀ (f : Frame) (a : FontAtlas) (fs : ℚ) (pos : Point) (txt : List ℕ) (col : Color)
        (cen : Bool) (sc : ℚ),
        Frame.add_text f { a with font_size := fs } pos txt col cen sc =
          Frame.add_text f a pos txt col cen sc) := by
  constructor
  · intro t s
    cases t
    rfl
  · intro f a fs pos txt col cen sc
    simp only [Frame.add_text]
    rw [addTextLoop_congr { a with font_size := fs } a rfl rfl col (sc / 20) (sc / 20) txt
      (pos.1, pos.2, [])]

/-- A text whose requested size equals the atlas nominal size, so the
claimed scale factor would be exactly 1. -/
def tC7 : Text :=
  { text := [65], text_size := 24, position := (0, 0),
    font := some demoFontA, color := white, offset := (0, 0) }

/-- Counterexample to C7 as stated: with requested size 24 over an atlas of
nominal size 24 the claimed factor is 1, but the code's hardcoded `0.69`
produces different vertices than the claimed formula would. -/
theorem C7_counterexample :
    demoFontA.atlas.font_size = 24
    ∧ tC7.text_size = 24
    ∧ Text.get_vertices tC7 ≠ Text.get_vertices_specScale tC7 := by
  refine ⟨rfl, rfl, ?_⟩
  with_unfolding_all decide

/-- C5 (amended): `Overlay::current_font` on an empty font stack does
return `None`, but `Frame::add` never reports a "no font on stack" error:
a text primitive with no font silently resolves to whatever font is
registered under id 0 — without consulting the font stack at all — and only
panics if id 0 is unregistered. -/
theorem C5_silent_fallback (cosQ sinQ : ℚ → ℚ) (o : Overlay) (f : Frame) (t : Text)
    (hfont : t.font = none) (F : Font) (hF : o.fontsGet 0 = some F) :
    Frame.add cosQ sinQ o f (Prim.textP t) =
      (Text.get_vertices { t with font := some F }).map
        (fun vs => { f with text_buffer := f.text_buffer ++ vs })
    ∧ ∀ fonts : List (ℕ × Font),
        Overlay.current_font { fonts := fonts, font_stack := [] } = none := by
  constructor
  · simp only [Frame.add, hfont, hF, Option.map_some']
    cases hv : Text.get_vertices { t with font := some F } with
    | none => simp [hv]
    | some vs => simp [hv]
  · intro fonts
    rfl

/-- An overlay whose font stack is empty but whose registry has a font
under id 0. -/
def ovC5 : Overlay := { fonts := [(0, demoFontA)], font_stack := [] }

/-- A text primitive with no explicit font. -/
def tC5 : Text :=
  { text := [65], text_size := 12, position := (0, 0),
    font := none, color := white, offset := (0, 0) }

/-- Counterexample to C5 as stated: drawing a text with an unresolved font
over an empty font stack succeeds silently (`some`, non-empty output) using
the unrequested font id 0, instead of reporting an error. -/
theorem C5_counterexample :
    Overlay.current_font ovC5 = none
    ∧ (Frame.add (fun _ => 0) (fun _ => 0) ovC5 frame0 (Prim.textP tC5)).isSome = true
    ∧ (Frame.add (fun _ => 0) (fun _ => 0) ovC5 frame0 (Prim.textP tC5)).map
        (fun f => f.text_buffer.length) = some 6 := by
  refine ⟨rfl, ?_, ?_⟩ <;> with_unfolding_all decide

/-- Witness for C5: the amended theorem applied to the concrete overlay
with an empty stack and font id 0 registered. -/
theorem C5_witness :
    Frame.add (fun _ => 0) (fun _ => 0) ovC5 frame0 (Prim.textP tC5) =
      (Text.get_vertices { tC5 with font := some demoFontA }).map
        (fun vs => { frame0 with text_buffer := frame0.text_buffer ++ vs }) :=
  (C5_silent_fallback (fun _ => 0) (fun _ => 0) ovC5 frame0 tC5 rfl demoFontA
    (by with_unfolding_all decide)).1

/-- C2 (amended): a Frame does not keep texture-keyed runs at all: it has
exactly two buffers (one untextured shape buffer, one text buffer), and
`get_draw_data` always returns exactly these two, whatever was added.
Every text primitive appends to the single shared text buffer (so N texts
over one font do form a single textured run), and every other primitive
appends to the shape buffer; alternating fonts or textures can never create
additional runs. -/
theorem C2_two_buffers (cosQ sinQ : ℚ → ℚ) (o : Overlay) (f f2 : Frame) (p : Prim) :
    f.get_draw_data.length = 2
    ∧ (Frame.add cosQ sinQ o f p = some f2 →
        f2.get_draw_data.length = 2
        ∧ ((∃ t, p = Prim.textP t) →
            f2.shape_buffer = f.shape_buffer ∧
              ∃ vs, f2.text_buffer = f.text_buffer ++ vs)
        ∧ ((∀ t, p ≠ Prim.textP t) →
            f2.text_buffer = f.text_buffer ∧
              ∃ vs, f2.shape_buffer = f.shape_buffer ++ vs)) := by
  refine ⟨rfl, fun hadd => ⟨rfl, ?_, ?_⟩⟩
  · rintro ⟨t, rfl⟩
    simp only [Frame.add] at hadd
    split at hadd
    · exact absurd hadd (by simp)
    · split at hadd
      · exact absurd hadd (by simp)
      · cases Option.some.inj hadd
        exact ⟨rfl, _, rfl⟩
  · intro hnot
    rcases p with l | r | c | v1 | t
    case textP => exact absurd rfl (hnot _)
    all_goals
      simp only [Frame.add, Prim.get_vertices] at hadd
    case lineP =>
      cases Option.some.inj hadd
      exact ⟨rfl, _, rfl⟩
    case rectangleP =>
      cases Option.some.inj hadd
      exact ⟨rfl, _, rfl⟩
    case circleP =>
      cases Option.some.inj hadd
      exact ⟨rfl, _, rfl⟩
    case triangleP =>
      cases Option.some.inj hadd
      exact ⟨rfl, _, rfl⟩

/-- A one-character text over `demoFontA`. -/
def tC2A : Text :=
  { text := [65], text_size := 12, position := (0, 0),
    font := some demoFontA, color := white, offset := (0, 0) }

/-- A one-character text over `demoFontB` (a distinct GPU texture). -/
def tC2B : Text :=
  { text := [65], text_size := 12, position := (0, 0),
    font := some demoFontB, color := white, offset := (0, 0) }

/-- The overlay registering both demo fonts. -/
def ovC2 : Overlay := { fonts := [(0, demoFontA), (1, demoFontB)], font_stack := [0] }

/-- One `Frame::add` of a text primitive over the two-font overlay. -/
def addC2 (f : Frame) (t : Text) : Option Frame :=
  Frame.add (fun _ => 0) (fun _ => 0) ovC2 f (Prim.textP t)

/-- Four adds alternating between the two distinct font textures
(k = 2 alternations: A, B, A, B). -/
def chainC2 : Option Frame :=
  (((addC2 frame0 tC2A).bind (fun f => addC2 f tC2B)).bind
      (fun f => addC2 f tC2A)).bind (fun f => addC2 f tC2B)

/-- Counterexample to C2 as stated: adding four text primitives that
alternate between two distinct textures (k = 2 alternations) should yield
2k = 4 runs per the claim, but `get_draw_data` reports 2 runs — the frame
always has exactly its two fixed buffers. -/
theorem C2_counterexample :
    demoFontA.atlas.texture ≠ demoFontB.atlas.texture
    ∧ chainC2.map (fun f => f.get_draw_data.length) = some 2
    ∧ chainC2.map (fun f => f.get_draw_data.length) ≠ some 4 := by
  refine ⟨?_, ?_, ?_⟩ <;> with_unfolding_all decide

/-- Witness for C2: the amended theorem applied to a concrete successful
text add. -/
theorem C2_witness :
    frame0.get_draw_data.length = 2
    ∧ ((Frame.add (fun _ => 0) (fun _ => 0) ovC2 frame0 (Prim.textP tC2A)).getD frame0
        ).get_draw_data.length = 2 :=
  ⟨(C2_two_buffers (fun _ => 0) (fun _ => 0) ovC2 frame0 frame0 (Prim.textP tC2A)).1,
   by
    rcases hadd : Frame.add (fun _ => 0) (fun _ => 0) ovC2 frame0 (Prim.textP tC2A)
      with _ | f2
    · rfl
    · simpa using
        ((C2_two_buffers (fun _ => 0) (fun _ => 0) ovC2 frame0 f2 (Prim.textP tC2A)).2
          hadd).1⟩

/-- The midpoint of the bounding box of a vertex buffer (the point the
buffer would be symmetric around), phrased with the source's own
bounding-box fold.  Used to state the claim's symmetry property. -/
def bboxMid (buf : List Vertex) : Point :=
  (((bboxFold buf).1 + (bboxFold buf).2.2.1) / 2,
   ((bboxFold buf).2.1 + (bboxFold buf).2.2.2) / 2)

/-- A two-character text over `demoFontA`, anchored at the origin with the
centering offset `[0.5, 0.5]`. -/
def tC6 : Text :=
  { text := [65, 66], text_size := 12, position := (0, 0),
    font := some demoFontA, color := white, offset := (1 / 2, 1 / 2) }

/-- C6 (amended): the anchor post-pass subtracts `width * offset.x` from
every x position but `height * (offset.y - 1.0)` — not `height * offset.y`
— from every y position.  Consequently centering with `[0.5, 0.5]` does not
make the output symmetric around the anchor point: for the concrete `tC6`
anchored at the origin, the resulting bounding-box midpoint is
`(0, 69/100)`, not the anchor `(0, 0)`. -/
theorem C6_anchor_postpass (t : Text) (font : Font) (st : ℚ × ℚ × List Vertex)
    (hfont : t.font = some font)
    (hloop : textVerticesLoop font.atlas t.color (69 / 100)
      (t.position.1, t.position.2, []) t.text = some st) :
    Text.get_vertices t = some (st.2.2.map (fun v =>
      { v with position :=
          (v.position.1 - ((bboxFold st.2.2).2.2.1 - (bboxFold st.2.2).1) * t.offset.1,
           v.position.2 - ((bboxFold st.2.2).2.2.2 - (bboxFold st.2.2).2.1)
             * (t.offset.2 - 1)) }))
    ∧ (Text.get_vertices tC6).map bboxMid = some (0, 69 / 100)
    ∧ tC6.position = (0, 0) ∧ ((0 : ℚ), (69 : ℚ) / 100) ≠ (((0 : ℚ), (0 : ℚ)) : Point) := by
  refine ⟨?_, ?_, rfl, ?_⟩
  · simp [Text.get_vertices, hfont, hloop]
  · with_unfolding_all decide
  · with_unfolding_all decide

/-- Counterexample to C6 as stated: on the concrete centered text `tC6` the
code's post-pass output differs from the claimed
"subtract bbox_size * anchor_offset" post-pass, and the resulting bounding
box is centered at `(0, 69/100)`, not at the anchor `(0, 0)`. -/
theorem C6_counterexample :
    Text.get_vertices tC6 ≠ Text.get_vertices_specAnchor tC6
    ∧ (Text.get_vertices tC6).map bboxMid ≠ some tC6.position := by
  constructor <;> with_unfolding_all decide

/-- An empty text over `demoFontA` (the loop returns its initial state). -/
def tC6empty : Text :=
  { text := [], text_size := 12, position := (0, 0),
    font := some demoFontA, color := white, offset := (1 / 2, 1 / 2) }

/-- Witness for C6: the amended theorem applied to a concrete text whose
loop state is explicit. -/
theorem C6_witness :
    Text.get_vertices tC6empty = some (([] : List Vertex).map (fun v =>
      { v with position :=
          (v.position.1 - ((bboxFold []).2.2.1 - (bboxFold []).1) * tC6empty.offset.1,
           v.position.2 - ((bboxFold []).2.2.2 - (bboxFold []).2.1)
             * (tC6empty.offset.2 - 1)) })) :=
  (C6_anchor_postpass tC6empty demoFontA ((0 : ℚ), (0 : ℚ), ([] : List Vertex)) rfl
    (by with_unfolding_all decide)).1

/-- The 2D cross product, used to state point-in-triangle membership. -/
def cross2 (u v : Point) : ℚ := u.1 * v.2 - u.2 * v.1

/-- Membership of `p` in the closed triangle `a b c`, orientation
independent: the three edge cross products all share one sign. -/
def inTriPt (a b c p : Point) : Prop :=
  (0 ≤ cross2 (b - a) (p - a) ∧ 0 ≤ cross2 (c - b) (p - b) ∧ 0 ≤ cross2 (a - c) (p - c))
  ∨ (cross2 (b - a) (p - a) ≤ 0 ∧ cross2 (c - b) (p - b) ≤ 0 ∧ cross2 (a - c) (p - c) ≤ 0)

instance (a b c p : Point) : Decidable (inTriPt a b c p) := by
  unfold inTriPt
  infer_instance

/-- Membership of `p` in the closed axis-aligned rectangle from `tl` to
`br`. -/
def inRectPt (tl br p : Point) : Prop :=
  tl.1 ≤ p.1 ∧ p.1 ≤ br.1 ∧ tl.2 ≤ p.2 ∧ p.2 ≤ br.2

instance (tl br p : Point) : Decidable (inRectPt tl br p) := by
  unfold inRectPt
  infer_instance

lemma lineUnionHalf (x y : ℚ) :
    (inTriPt (0, 1) (10, -1) (10, 1) (x, y) ∨ inTriPt (0, -1) (10, -1) (0, 1) (x, y))
      ↔ inRectPt (0, -1) (10, 1) (x, y) := by
  simp only [inTriPt, inRectPt, cross2, Prod.mk_sub_mk]
  constructor
  · rintro ((⟨h1, h2, h3⟩ | ⟨h1, h2, h3⟩) | (⟨h1, h2, h3⟩ | ⟨h1, h2, h3⟩)) <;>
      refine ⟨by linarith, by linarith, by linarith, by linarith⟩
  · rintro ⟨hx0, hx1, hy0, hy1⟩
    rcases le_or_lt 0 (10 * (y - 1) + 2 * x) with hd | hd
    · exact Or.inl (Or.inl ⟨by linarith, by linarith, by linarith⟩)
    · exact Or.inr (Or.inl ⟨by linarith, by linarith, by linarith⟩)

lemma lineUnionFull (x y : ℚ) :
    (inTriPt (0, 2) (10, -2) (10, 2) (x, y) ∨ inTriPt (0, -2) (10, -2) (0, 2) (x, y))
      ↔ inRectPt (0, -2) (10, 2) (x, y) := by
  simp only [inTriPt, inRectPt, cross2, Prod.mk_sub_mk]
  constructor
  · rintro ((⟨h1, h2, h3⟩ | ⟨h1, h2, h3⟩) | (⟨h1, h2, h3⟩ | ⟨h1, h2, h3⟩)) <;>
      refine ⟨by linarith, by linarith, by linarith, by linarith⟩
  · rintro ⟨hx0, hx1, hy0, hy1⟩
    rcases le_or_lt 0 (10 * (y - 2) + 4 * x) with hd | hd
    · exact Or.inl (Or.inl ⟨by linarith, by linarith, by linarith⟩)
    · exact Or.inr (Or.inl ⟨by linarith, by linarith, by linarith⟩)

/-- C8 (amended): both tessellators emit exactly 6 vertices (two
triangles), but only `Frame::add_line` offsets the segment perpendicular by
`thickness / 2` on each side: at start=(0,0), end=(10,0), thickness=2 its
two triangles' union is exactly the rectangle [(0,-1)-(10,1)], while the
`Line` primitive's `get_line` offsets by the full thickness, so its union
is the rectangle [(0,-2)-(10,2)]. -/
theorem C8_line_tessellation :
    (∀ (s e : Point) (c : Color) (th : ℚ), (get_line s e c th).length = 6)
    ∧ (∀ (f : Frame) (s e : Point) (th : ℚ) (c : Color),
        (Frame.add_line f s e th c).shape_buffer.length = f.shape_buffer.length + 6)
    ∧ ((Frame.add_line frame0 (0, 0) (10, 0) 2 white).shape_buffer.map Vertex.position
        = [(0, 1), (10, -1), (10, 1), (0, -1), (10, -1), (0, 1)])
    ∧ (∀ p : Point, (inTriPt (0, 1) (10, -1) (10, 1) p ∨ inTriPt (0, -1) (10, -1) (0, 1) p)
        ↔ inRectPt (0, -1) (10, 1) p)
    ∧ ((get_line (0, 0) (10, 0) white 2).map Vertex.position
        = [(0, 2), (10, -2), (10, 2), (0, -2), (10, -2), (0, 2)])
    ∧ (∀ p : Point, (inTriPt (0, 2) (10, -2) (10, 2) p ∨ inTriPt (0, -2) (10, -2) (0, 2) p)
        ↔ inRectPt (0, -2) (10, 2) p) := by
  refine ⟨fun s e c th => rfl, fun f s e th c => by simp [Frame.add_line], ?_, ?_, ?_, ?_⟩
  · with_unfolding_all decide
  · rintro ⟨x, y⟩
    exact lineUnionHalf x y
  · with_unfolding_all decide
  · rintro ⟨x, y⟩
    exact lineUnionFull x y

/-- Counterexample to C8 as stated: `get_line` at start=(0,0), end=(10,0),
thickness=2 emits the corner (0,2); that point lies in the first emitted
triangle but outside the claimed union rectangle [(0,-1)-(10,1)]. -/
theorem C8_counterexample :
    ((get_line (0, 0) (10, 0) white 2).map Vertex.position
        = [(0, 2), (10, -2), (10, 2), (0, -2), (10, -2), (0, 2)])
    ∧ inTriPt (0, 2) (10, -2) (10, 2) (0, 2)
    ∧ ¬ inRectPt (0, -1) (10, 1) (0, 2) := by
  refine ⟨?_, ?_, ?_⟩ <;> with_unfolding_all decide

/-- Witness for C8: the union equivalence evaluated at the interior point
(3, 0). -/
theorem C8_witness : inRectPt (0, -1) (10, 1) ((3 : ℚ), (0 : ℚ)) :=
  (C8_line_tessellation.2.2.2.1 (3, 0)).mp (Or.inr (by with_unfolding_all decide))

lemma rustRound_intCast (z : ℤ) : rustRound (z : ℚ) = (z : ℚ) := by
  unfold rustRound
  split
  · rw [show ((z : ℚ) + 1 / 2) = ((1 : ℚ) / 2 + z) by ring, Int.floor_add_int]
    norm_num
  · rw [show ((z : ℚ) - 1 / 2) = (-(1 / 2 : ℚ) + z) by ring, Int.ceil_add_int]
    norm_num

lemma rustRound_exists_int (q : ℚ) : ∃ z : ℤ, rustRound q = (z : ℚ) := by
  unfold rustRound
  split
  · exact ⟨_, rfl⟩
  · exact ⟨_, rfl⟩

lemma rustRound_idem (q : ℚ) : rustRound (rustRound q) = rustRound q := by
  obtain ⟨z, hz⟩ := rustRound_exists_int q
  rw [hz, rustRound_intCast]

/-- The tight bounding box (min corner, max corner) of a list of points;
`none` for the empty list. -/
def bboxOf : List Point → Option (Point × Point)
  | [] => none
  | p :: ps =>
    some (ps.foldl
      (fun bb q => ((min bb.1.1 q.1, min bb.1.2 q.2), (max bb.2.1 q.1, max bb.2.2 q.2)))
      (p, p))

/-- A border (unfilled) rectangle with non-integer corners 0.4 and 10.6 and
thickness 1. -/
def rC10border : FrameRect :=
  { top_left := (2 / 5, 2 / 5), bottom_right := (53 / 5, 53 / 5), color := white,
    filled := false, thickness := 1 }

/-- C10 (amended): `Frame::add_rect` rounds both corners first and all
emitted vertices are computed from the rounded corners (the output is
invariant under pre-rounding the input).  The bounding box of the emitted
geometry equals the rounded corners only for filled rectangles; the border
branch produces a bounding box equal to the rounded corners expanded by
`thickness / 2` on each side, as the concrete `rC10border` (rounded to
(0,0)-(11,11), thickness 1, bounding box (-1/2,-1/2)-(23/2,23/2)) shows. -/
theorem C10_rect_rounding (f : Frame) (r : FrameRect) :
    Frame.add_rect f r = Frame.add_rect f
      { r with top_left := (rustRound r.top_left.1, rustRound r.top_left.2),
               bottom_right := (rustRound r.bottom_right.1, rustRound r.bottom_right.2) }
    ∧ (r.filled = true →
        rustRound r.top_left.1 ≤ rustRound r.bottom_right.1 →
        rustRound r.top_left.2 ≤ rustRound r.bottom_right.2 →
        bboxOf ((Frame.add_rect frame0 r).shape_buffer.map Vertex.position)
          = some ((rustRound r.top_left.1, rustRound r.top_left.2),
                  (rustRound r.bottom_right.1, rustRound r.bottom_right.2)))
    ∧ bboxOf ((Frame.add_rect frame0 rC10border).shape_buffer.map Vertex.position)
        = some ((-(1 / 2), -(1 / 2)), (23 / 2, 23 / 2)) := by
  refine ⟨?_, ?_, ?_⟩
  · simp only [Frame.add_rect, rustRound_idem]
  · intro hf h1 h2
    simp only [Frame.add_rect, hf, if_pos, frame0, List.nil_append, List.map_cons,
      List.map_nil, bboxOf, List.foldl_cons, List.foldl_nil]
    simp [min_eq_left h1, min_eq_right h1, max_eq_left h1, max_eq_right h1,
      min_eq_left h2, min_eq_right h2, max_eq_left h2, max_eq_right h2,
      min_self, max_self]
  · with_unfolding_all decide

/-- A filled rectangle with non-integer corners. -/
def rC10filled : FrameRect :=
  { top_left := (2 / 5, 2 / 5), bottom_right := (53 / 5, 53 / 5), color := white,
    filled := true, thickness := 1 }

/-- Counterexample to C10 as stated: for the border rectangle `rC10border`
the rounded corners are (0,0) and (11,11), but the emitted geometry's
bounding box is (-1/2,-1/2)-(23/2,23/2) (the rounded box inflated by
thickness/2), so the bounding box does not equal the rounded corners. -/
theorem C10_counterexample :
    rustRound (2 / 5) = 0 ∧ rustRound (53 / 5) = 11
    ∧ bboxOf ((Frame.add_rect frame0 rC10border).shape_buffer.map Vertex.position)
        = some ((-(1 / 2), -(1 / 2)), (23 / 2, 23 / 2))
    ∧ ((((-(1 / 2 : ℚ), -(1 / 2 : ℚ)), ((23 : ℚ) / 2, (23 : ℚ) / 2)) : Point × Point)
        ≠ ((((0 : ℚ), (0 : ℚ)), ((11 : ℚ), (11 : ℚ))) : Point × Point)) := by
  refine ⟨?_, ?_, ?_, ?_⟩ <;> with_unfolding_all decide

/-- Witness for C10: the filled bounding-box conclusion evaluated at the
concrete `rC10filled`. -/
theorem C10_witness :
    bboxOf ((Frame.add_rect frame0 rC10filled).shape_buffer.map Vertex.position)
      = some ((rustRound rC10filled.top_left.1, rustRound rC10filled.top_left.2),
              (rustRound rC10filled.bottom_right.1, rustRound rC10filled.bottom_right.2)) :=
  (C10_rect_rounding frame0 rC10filled).2.1 rfl (by with_unfolding_all decide)
    (by with_unfolding_all decide)

end Overlaylib
